import Mathlib

/-!
Verification of the sequence-decoding engine and error-rate metrics of the
text_recognizer repository.

The development shallowly embeds:

* `Reader.predict` (text_recognizer/networks/cnn_tranformer.py): the
  autoregressive generation loop, including the exact runtime semantics of the
  early-stop expression
  `(output[:, i - 1] == self.end_index | output[: i - 1] == self.pad_index).all()`
  and of the post-pass masking expression
  `output[:, i - 1] == self.end_index | output[:, i - 1] == self.pad_index`.
  In the host language `|` binds tighter than `==`, and `a == b == c` is a
  chained comparison evaluating `(a == b) and (b == c)`, where the truth test
  on a tensor raises for tensors with zero or several elements.  The embedding
  models these outcomes with the `PyErr` error type.

* the metric functions `accuracy_ignore_pad`, `accuracy`, `cer` and `wer`
  (src/text_recognizer/models/metrics.py).  The external greedy decoder is an
  external collaborator (spec section 4.2); `cer`/`wer` are therefore
  parametrised by its output, the decoded symbol sequences.  The external
  `Levenshtein.distance` routine is embedded as the textbook Levenshtein
  edit-distance recurrence `levDist`.
-/

/-- Runtime errors of the host language / tensor library that the embedded
code can hit: truth-testing a tensor with no elements or with several
elements, a failed shape broadcast, calling a tensor method on a plain
boolean, and integer division by zero.  `invalidInput` is the explicit
invalid-input rejection that the design notes prescribe; it is distinct from
every error the code actually raises. -/
inductive PyErr where
  | boolOfEmptyTensor
  | boolOfMultiTensor
  | broadcastMismatch
  | attributeError
  | zeroDivision
  | invalidInput
deriving DecidableEq

/-! ### The generation loop of `Reader.predict`

Tokens are vocabulary indices, modelled as `Nat`.  The output buffer is a
`bsz × L` matrix, a list of rows.  The decode / arg-max / slice-assignment
pipeline producing the token written at step `i` is abstracted as a function
`next` from the current prefix (`output[:, :i]`) to the column of tokens
written into `output[:, i]`; the Step Decoder is an external collaborator
(spec section 2), and nothing proved below depends on `next`. -/

/-- Column `j` of the buffer: `output[:, j]`. -/
def colOf (m : List (List Nat)) (j : Nat) : List Nat :=
  m.map (fun r => r.getD j 0)

/-- Write `v` into column `j`: `output[:, j:j+1] = v`. -/
def writeCol (m : List (List Nat)) (j : Nat) (v : List Nat) : List (List Nat) :=
  (List.range m.length).map (fun k => (m.getD k []).set j (v.getD k 0))

/-- Broadcast elementwise equality of a 1-D tensor `A` (shape `(A.length,)`)
against a 2-D tensor `B` of shape `(B.length, bc)`: the 1-D operand aligns
with the trailing dimension, so the sizes `A.length` and `bc` must be equal
or one of them must be `1`, and otherwise the library raises a broadcast
error. -/
def bcastEq1D2D (A : List Nat) (B : List (List Nat)) (bc : Nat) :
    Except PyErr (List (List Bool)) :=
  if A.length = bc ∨ A.length = 1 ∨ bc = 1 then
    .ok (B.map (fun row =>
      (List.range (max A.length bc)).map (fun j =>
        (if A.length = 1 then A.getD 0 0 else A.getD j 0)
          = (if bc = 1 then row.getD 0 0 else row.getD j 0))))
  else .error .broadcastMismatch

/-- Truth test `bool(t)` of a 2-D boolean tensor: defined only for exactly one
element, raising on empty and on multi-element tensors. -/
def pyBoolM (rows : List (List Bool)) : Except PyErr Bool :=
  if (rows.map List.length).sum = 0 then .error .boolOfEmptyTensor
  else if (rows.map List.length).sum = 1 then .ok (rows.flatten.getD 0 false)
  else .error .boolOfMultiTensor

/-- Truth test `bool(t)` of a 1-D boolean tensor. -/
def pyBool1 (v : List Bool) : Except PyErr Bool :=
  if v.length = 0 then .error .boolOfEmptyTensor
  else if v.length = 1 then .ok (v.getD 0 false)
  else .error .boolOfMultiTensor

/-- The early-stop expression of the generation loop, as the host language
evaluates it.  `output[:, i - 1] == self.end_index | output[: i - 1] ==
self.pad_index` parses as the chained comparison
`(X == Y) and (Y == Z)` with `X = output[:, i-1]` (1-D, length `bsz`),
`Y = end_index | output[:i-1]` (the bitwise or against the 2-D row slice
`output[:i-1]`, of shape `(i-1, L)`) and `Z = pad_index`.  The first
comparison broadcasts 1-D against 2-D; the `and` truth-tests its left
operand; if that test yields `False` the whole chain is the plain boolean
`False`, whose `.all()` attribute access raises. -/
def earlyStop (out : List (List Nat)) (L i endI padI : Nat) : Except PyErr Bool :=
  let X := colOf out (i - 1)
  let B := (out.take (i - 1)).map (fun r => r.map (fun x => endI ||| x))
  match bcastEq1D2D X B L with
  | .error e => .error e
  | .ok c1 =>
    match pyBoolM c1 with
    | .error e => .error e
    | .ok true => .ok ((B.map (fun r => r.map (fun x => decide (x = padI)))).all (fun r => r.all id))
    | .ok false => .error .attributeError

/-- The body of `for i in range(1, max_output_len)`: write the next token
column, then evaluate the early-stop check on the updated buffer, breaking
out of the loop when it is satisfied. -/
def genGo (L endI padI : Nat) (next : List (List Nat) → List Nat) :
    List Nat → List (List Nat) → Except PyErr (List (List Nat))
  | [], out => .ok out
  | i :: rest, out =>
    let out' := writeCol out i (next (out.map (List.take i)))
    match earlyStop out' L i endI padI with
    | .error e => .error e
    | .ok true => .ok out'
    | .ok false => genGo L endI padI next rest out'

/-- One step of the post-pass masking loop.  The index expression
`output[:, i - 1] == self.end_index | output[:, i - 1] == self.pad_index`
again parses as a chained comparison `(X == Y) and (Y == Z)` with
`Y = end_index | X`; here both comparisons are over shape `(bsz,)`, so the
`and` truth-tests a `bsz`-element tensor.  When that test yields `False` the
whole index is the plain boolean `False`, and `output[False, i] = pad`
selects nothing, so nothing is written. -/
def maskStep (out : List (List Nat)) (i endI padI : Nat) :
    Except PyErr (List (List Nat)) :=
  let X := colOf out (i - 1)
  let Y := X.map (fun x => endI ||| x)
  let c1 := (List.range X.length).map (fun k => decide (X.getD k 0 = Y.getD k 0))
  match pyBool1 c1 with
  | .error e => .error e
  | .ok true =>
    let idx := Y.map (fun x => decide (x = padI))
    .ok ((List.range out.length).map (fun k =>
      if idx.getD k false then (out.getD k []).set i padI else out.getD k []))
  | .ok false => .ok out

/-- The post-pass masking loop `for i in range(1, max_output_len)`. -/
def maskGo (endI padI : Nat) :
    List Nat → List (List Nat) → Except PyErr (List (List Nat))
  | [], out => .ok out
  | i :: rest, out =>
    match maskStep out i endI padI with
    | .error e => .error e
    | .ok out' => maskGo endI padI rest out'

/-- The output buffer as `Reader.predict` creates it:
`torch.ones((bsz, max_output_len), dtype=torch.long)` followed by
`output[:, 0] = self.start_index` — every position holds the integer `1`
except column 0, which holds the start index. -/
def initBuffer (bsz L startI : Nat) : List (List Nat) :=
  List.replicate bsz ((List.replicate L 1).set 0 startI)

/-- `Reader.predict`: initialise the buffer, run the generation loop over
steps `1, …, L-1`, then run the post-pass masking loop over the same steps. -/
def predict (bsz L startI endI padI : Nat)
    (next : List (List Nat) → List Nat) : Except PyErr (List (List Nat)) :=
  match genGo L endI padI next (List.range' 1 (L - 1)) (initBuffer bsz L startI) with
  | .error e => .error e
  | .ok out => maskGo endI padI (List.range' 1 (L - 1)) out

/-! ### Levenshtein edit distance

`Levenshtein.distance` of the external library: the textbook edit distance
counting single-element insertions, deletions and substitutions, given by the
standard dynamic-programming recurrence. -/

/-- Textbook Levenshtein distance between two sequences. -/
def levDist {α : Type} [DecidableEq α] : List α → List α → Nat
  | [], t => t.length
  | a :: s, [] => (a :: s).length
  | a :: s, b :: t =>
    min (levDist s (b :: t) + 1)
      (min (levDist (a :: s) t + 1) (levDist s t + (if a = b then 0 else 1)))
termination_by s t => s.length + t.length

/-! ### Metric functions (src/text_recognizer/models/metrics.py)

`accuracy_ignore_pad` receives a flattened target tensor holding consecutive
logical blocks of length `seq_len`. -/

/-- Positions of the end-of-sequence token in the flattened target:
`torch.nonzero(target == eos_index).squeeze(1)`, in ascending order. -/
def eosPositions (target : List Nat) (eosI : Nat) : List Nat :=
  (List.range target.length).filter (fun p => target.getD p 0 = eosI)

/-- The block boundaries `torch.arange(seq_len, target.shape[0] + 1, seq_len)`:
the multiples of `seq_len` that are at most the target length. -/
def blockEnds (seqLen N : Nat) : List Nat :=
  (List.range (N / seqLen)).map (fun k => (k + 1) * seqLen)

/-- The slice assignment `output[a : b] = v`: positions `a ≤ j < b` are
overwritten (the empty slice when `a ≥ b`), out-of-range indices clamped. -/
def setRange (l : List Nat) (a b v : Nat) : List Nat :=
  (List.range l.length).map (fun j => if a ≤ j ∧ j < b then v else l.getD j 0)

/-- The masking phase of `accuracy_ignore_pad`: the `k`-th end-of-sequence
position anywhere in the flattened target is zipped with the `k`-th block
boundary, and `output[start + 1 : stop]` is overwritten with the pad index
for each such pair. -/
def maskAfterEos (output target : List Nat) (padI eosI seqLen : Nat) : List Nat :=
  ((eosPositions target eosI).zip (blockEnds seqLen target.length)).foldl
    (fun out se => setRange out (se.1 + 1) se.2 padI) output

/-- `torch.max(row, dim=-1)`: the index of the first maximal entry of a row of
logits.  Real-valued logits are embedded as rationals; only their ordering
matters. -/
def argmaxIdx : List ℚ → Nat
  | [] => 0
  | [_] => 0
  | x :: y :: t =>
    if (y :: t).getD (argmaxIdx (y :: t)) 0 > x then argmaxIdx (y :: t) + 1 else 0

/-- `(predicted == labels).sum()`: the number of aligned positions where the
predicted class equals the label (the tensors have equal shape `(N,)`). -/
def matchCount (predicted labels : List Nat) : Nat :=
  (List.range labels.length).countP (fun i => predicted.getD i 0 = labels.getD i 0)

/-- `accuracy(outputs, labels)`: arg-max class per position, compared
elementwise to the labels, summed and divided by `labels.shape[0]`. -/
def accuracy (outputs : List (List ℚ)) (labels : List Nat) : ℚ :=
  (matchCount (outputs.map argmaxIdx) labels : ℚ) / (labels.length : ℚ)

/-- Outputs are exact one-hot encodings of the labels: row `i` holds `1` at
index `labels[i]` (a valid class index) and `0` everywhere else. -/
def isOneHot (outputs : List (List ℚ)) (labels : List Nat) : Prop :=
  ∀ i < labels.length,
    labels.getD i 0 < (outputs.getD i []).length ∧
      ∀ j < (outputs.getD i []).length,
        (outputs.getD i []).getD j 0 = if j = labels.getD i 0 then 1 else 0

/-- `prediction.replace(" ", "")`: drop every space character. -/
def stripSpaces (s : List Char) : List Char :=
  s.filter (fun c => c ≠ ' ')

/-- The edit distance one decoded batch-element pair contributes to `cer`:
each side's symbols are concatenated (`"".join`), spaces are removed, and the
character-level Levenshtein distance is taken. -/
def cerPairDist (p t : List (List Char)) : Nat :=
  levDist (stripSpaces p.flatten) (stripSpaces t.flatten)

/-- `cer(outputs, targets)` downstream of the greedy decoder (an external
collaborator, spec section 4.2): sum the per-pair edit distances over the
zipped decoded predictions and targets, then divide by the number of decoded
predictions.  A zero count makes the division raise. -/
def cer (preds targs : List (List (List Char))) : Except PyErr ℚ :=
  let distSum := ((preds.zip targs).map (fun pt => cerPairDist pt.1 pt.2)).sum
  if preds.length = 0 then .error .zeroDivision
  else .ok ((distSum : ℚ) / (preds.length : ℚ))

/-- `str.split()`: split on runs of whitespace, with no empty words. -/
def splitWordsAux : List Char → List Char → List (List Char)
  | [], acc => if acc = [] then [] else [acc.reverse]
  | c :: rest, acc =>
    if c.isWhitespace then
      if acc = [] then splitWordsAux rest []
      else acc.reverse :: splitWordsAux rest []
    else splitWordsAux rest (c :: acc)

/-- The word list of a string. -/
def splitWords (s : List Char) : List (List Char) :=
  splitWordsAux s []

/-- The position of an element in a list: the surrogate code `word2char`
assigns to a word. -/
def idxIn {α : Type} [DecidableEq α] (l : List α) (a : α) : Nat :=
  List.indexOf a l

/-- The edit distance one decoded batch-element pair contributes to `wer`:
both sides are joined and split into words, the set of words of the pair is
collected and each distinct word is mapped to one surrogate symbol
(`word2char` built from this pair alone; the embedding uses the word's index
in the deduplicated list — the host code enumerates a set and applies `chr`,
an arbitrary injective coding, and the distance depends only on equality of
codes), and the Levenshtein distance is taken over the surrogate sequences. -/
def werPairDist (p t : List (List Char)) : Nat :=
  let pw := splitWords p.flatten
  let tw := splitWords t.flatten
  let b := (pw ++ tw).dedup
  levDist (pw.map (fun w => idxIn b w)) (tw.map (fun w => idxIn b w))

/-- `wer(outputs, targets)` downstream of the greedy decoder: sum the
per-pair surrogate-symbol edit distances, divide by the number of decoded
predictions. -/
def wer (preds targs : List (List (List Char))) : Except PyErr ℚ :=
  let distSum := ((preds.zip targs).map (fun pt => werPairDist pt.1 pt.2)).sum
  if preds.length = 0 then .error .zeroDivision
  else .ok ((distSum : ℚ) / (preds.length : ℚ))

/-! ### Buffer mutation (frame effects of the metric functions)

The caller's tensors, as a state threaded through a metric call.  The only
in-place write in metrics.py is the slice assignment
`output[start + 1 : stop] = pad_index` inside `accuracy_ignore_pad`;
`accuracy`, `cer` and `wer` only read their arguments. -/

structure MetricsState where
  output : List Nat
  target : List Nat
deriving DecidableEq

/-- The caller's buffers after `accuracy_ignore_pad(output, target, …)`: the
output tensor has been masked in place, the target tensor is untouched. -/
def accuracyIgnorePadState (st : MetricsState) (padI eosI seqLen : Nat) :
    MetricsState :=
  { output := maskAfterEos st.output st.target padI eosI seqLen
    target := st.target }

/-- The caller's buffers after `accuracy(outputs, labels)`: untouched. -/
def accuracyState (st : MetricsState) : MetricsState := st

/-- The caller's buffers after `cer(outputs, targets)`: untouched. -/
def cerState (st : MetricsState) : MetricsState := st

/-- The caller's buffers after `wer(outputs, targets)`: untouched. -/
def werState (st : MetricsState) : MetricsState := st

/-! ### Helper lemmas: the generation loop raises at its first early-stop check -/

/-- At step `i = 1` the row slice `output[: i - 1]` is empty, so the first
comparison of the chained early-stop expression broadcasts the column
`output[:, 0]` (length `bsz`) against an empty `(0, L)` tensor: when the
trailing sizes are broadcast-compatible the result is an empty tensor whose
truth test raises, and otherwise the broadcast itself raises. -/
theorem earlyStop_one (out : List (List Nat)) (L endI padI : Nat) :
    earlyStop out L 1 endI padI =
      .error (if out.length = L ∨ out.length = 1 ∨ L = 1 then PyErr.boolOfEmptyTensor
        else PyErr.broadcastMismatch) := by
  rw [earlyStop]
  simp only [Nat.sub_self, List.take_zero, List.map_nil, bcastEq1D2D, colOf,
    List.length_map]
  by_cases h : out.length = L ∨ out.length = 1 ∨ L = 1 <;> simp [h, pyBoolM]

/-- Whenever the generation loop runs at least one step (`max_output_len ≥ 2`),
`predict` raises inside the very first early-stop check, for every batch size,
every token configuration and every step decoder. -/
theorem predict_raises (bsz L startI endI padI : Nat)
    (next : List (List Nat) → List Nat) (hL : 2 ≤ L) :
    predict bsz L startI endI padI next =
      .error (if bsz = L ∨ bsz = 1 then PyErr.boolOfEmptyTensor
        else PyErr.broadcastMismatch) := by
  obtain ⟨L', rfl⟩ : ∃ L', L = L' + 2 := ⟨L - 2, by omega⟩
  have hrange : List.range' 1 (L' + 2 - 1) = 1 :: List.range' 2 L' := by
    simpa using List.range'_succ 1 L' 1
  rw [predict, hrange, genGo, earlyStop_one]
  have hlen : (writeCol (initBuffer bsz (L' + 2) startI) 1
      (next ((initBuffer bsz (L' + 2) startI).map (List.take 1)))).length = bsz := by
    simp [writeCol, initBuffer]
  rw [hlen]
  have h1 : ¬ (L' + 2 = 1) := by omega
  simp only [h1, or_false]

/-! ### Claim C1 -/

/-- Claim C1 (code_bug): the claim states that every token sequence returned
by `Reader.predict` satisfies the suffix-pad invariant; in fact the code never
returns a token sequence at all whenever `max_output_len ≥ 2`, because the
early-stop expression raises at step 1 (missing comma in `output[: i - 1]`
plus the `==`/`|` chained-comparison precedence), so no finalized sequence on
which the invariant could be checked is ever produced. -/
theorem c1_predict_returns_no_sequence (bsz L startI endI padI : Nat)
    (next : List (List Nat) → List Nat) (hL : 2 ≤ L) :
    ∀ out : List (List Nat), predict bsz L startI endI padI next ≠ Except.ok out := by
  intro out h
  rw [predict_raises bsz L startI endI padI next hL] at h
  exact Except.noConfusion h

/-- Claim C1 witness: a batch of one element with `max_output_len = 3`,
start 0, end 2, pad 3 does not return the sequence `[start, end, pad]` the
invariant describes (nor any other sequence). -/
theorem c1_witness :
    predict 1 3 0 2 3 (fun _ => [2]) ≠ Except.ok [[0, 2, 3]] :=
  c1_predict_returns_no_sequence 1 3 0 2 3 (fun _ => [2]) (by norm_num) [[0, 2, 3]]

/-! ### Claim C2 -/

/-- Claim C2 (code_bug): the claim states the early-stop check stops the loop
at step `i` exactly when every batch element's token at `i-1` is
end-of-sequence or pad; in fact the check never produces a boolean at all:
at step 1 it raises — a `bool()` of an empty tensor when the batch size is
broadcast-compatible with `max_output_len` (equal, or either side 1), a
broadcast error otherwise — so the loop is terminated by an exception, never
by the documented condition. -/
theorem c2_early_stop_check_raises (out : List (List Nat)) (L endI padI : Nat)
    (hL : 2 ≤ L) :
    earlyStop out L 1 endI padI =
      .error (if out.length = L ∨ out.length = 1 then PyErr.boolOfEmptyTensor
        else PyErr.broadcastMismatch) := by
  rw [earlyStop_one]
  have h1 : ¬ L = 1 := by omega
  simp [h1]

/-- Claim C2 witness: the concrete buffer `[[0, 2, 3]]` (batch 1, L = 3)
makes the step-1 early-stop check raise the empty-tensor truth-test error. -/
theorem c2_witness :
    earlyStop [[0, 2, 3]] 3 1 2 3 = Except.error PyErr.boolOfEmptyTensor := by
  rw [c2_early_stop_check_raises [[0, 2, 3]] 3 2 3 (by norm_num)]
  simp

/-! ### Claim C3 -/

/-- Claim C3 counterexample: with `pad_index = 3`, `start_index = 0`, batch 1
and `max_output_len = 3`, position 1 of the freshly initialised buffer holds
the constant `1` (from `torch.ones`), not the pad index `3`, refuting the
claim that every position other than column 0 holds the pad index. -/
theorem c3_counterexample :
    ((initBuffer 1 3 0).getD 0 []).getD 1 0 = 1 ∧ (1 : Nat) ≠ 3 :=
  ⟨rfl, by decide⟩

/-- Claim C3 (corrected): the buffer `Reader.predict` creates holds the start
index in column 0 of every row and the constant `1` — the fill value of
`torch.ones`, which equals the pad index only when `pad_index = 1` — at every
other position. -/
theorem c3_amended_init (bsz L startI r : Nat) (hr : r < bsz) (hL : 1 ≤ L) :
    ((initBuffer bsz L startI).getD r []).getD 0 0 = startI ∧
      ∀ j, 1 ≤ j → j < L → ((initBuffer bsz L startI).getD r []).getD j 0 = 1 := by
  have hrow : (initBuffer bsz L startI).getD r [] = (List.replicate L 1).set 0 startI := by
    rw [initBuffer, List.getD_eq_getElem?_getD, List.getElem?_replicate]
    simp [hr]
  rw [hrow]
  refine ⟨?_, ?_⟩
  · rw [List.getD_eq_getElem?_getD, List.getElem?_set_self (by simpa using hL)]
    rfl
  · intro j h1 h2
    rw [List.getD_eq_getElem?_getD, List.getElem?_set_ne (by omega), List.getElem?_replicate]
    simp [h2]

/-- Claim C3 witness: row 1 of a fresh 2-by-3 buffer with start index 0.  -/
theorem c3_amended_witness :
    ((initBuffer 2 3 0).getD 1 []).getD 0 0 = 0 ∧
      ∀ j, 1 ≤ j → j < 3 → ((initBuffer 2 3 0).getD 1 []).getD j 0 = 1 :=
  c3_amended_init 2 3 0 1 (by norm_num) (by norm_num)

/-! ### Claim C4 -/

/-- Claim C4 (code_bug): for the step decoder whose arg-max is always the
end-of-sequence token (here 2, with start 0 and pad 3) and
`max_output_len = 4 > 2`, the claim demands the output `[start, end, pad, pad]`;
the code instead raises the empty-tensor truth-test error inside the step-1
early-stop check, immediately after writing the end token. -/
theorem c4_eos_decoder_predict_raises :
    predict 1 4 0 2 3 (fun _ => [2]) = Except.error PyErr.boolOfEmptyTensor := by
  rfl

/-! ### Levenshtein distance lemmas -/

/-- The edit distance of a sequence to itself is zero. -/
theorem levDist_self {α : Type} [DecidableEq α] (s : List α) : levDist s s = 0 := by
  induction s with
  | nil => simp [levDist]
  | cons a s ih =>
    rw [levDist]
    simp only [if_pos rfl, ih, if_true, eq_self_iff_true]
    omega

/-- Fuel-indexed form of `levDist_eq_zero_iff`. -/
theorem levDist_eq_zero_aux {α : Type} [DecidableEq α] :
    ∀ (n : Nat) (s t : List α), s.length + t.length ≤ n → (levDist s t = 0 ↔ s = t)
  | _, [], t, _ => by
    simp [levDist, List.length_eq_zero, eq_comm]
  | _, a :: s, [], _ => by
    simp [levDist]
  | Nat.succ n, a :: s, b :: t, h => by
    have hst := levDist_eq_zero_aux n s t (by simp at h; omega)
    by_cases hab : a = b
    · subst hab
      rw [levDist]
      simp only [if_pos rfl, if_true, eq_self_iff_true]
      constructor
      · intro h0
        have h1 : levDist s t = 0 := by omega
        rw [hst.mp h1]
      · intro h0
        have h2 : s = t := by injection h0
        subst h2
        have h3 : levDist s s = 0 := levDist_self s
        omega
    · rw [levDist]
      simp only [if_neg hab]
      constructor
      · intro h0
        omega
      · intro h0
        injection h0 with h1 h2
        exact absurd h1 hab

/-- The edit distance vanishes exactly on equal sequences. -/
theorem levDist_eq_zero_iff {α : Type} [DecidableEq α] (s t : List α) :
    levDist s t = 0 ↔ s = t :=
  levDist_eq_zero_aux (s.length + t.length) s t le_rfl

/-- One substitution in an otherwise identical pair costs exactly one edit,
whatever the context. -/
theorem levDist_substitution {α : Type} [DecidableEq α] (u v : List α) (x y : α)
    (hxy : x ≠ y) : levDist (u ++ x :: v) (u ++ y :: v) = 1 := by
  induction u with
  | nil =>
    simp only [List.nil_append]
    rw [levDist]
    simp only [if_neg hxy]
    have h0 : levDist v v = 0 := levDist_self v
    omega
  | cons a u ih =>
    simp only [List.cons_append]
    rw [levDist]
    simp only [if_pos rfl, ih, if_true, eq_self_iff_true]
    omega

/-- The edit distance only tests equality of elements, so any coding that is
injective across the two sequences preserves it. -/
theorem levDist_map_inj {α β : Type} [DecidableEq α] [DecidableEq β] (f : α → β) :
    ∀ (n : Nat) (xs ys : List α), xs.length + ys.length ≤ n →
      (∀ a ∈ xs, ∀ b ∈ ys, (f a = f b ↔ a = b)) →
      levDist (xs.map f) (ys.map f) = levDist xs ys
  | _, [], ys, _, _ => by simp [levDist]
  | _, a :: xs, [], _, _ => by simp [levDist]
  | Nat.succ n, a :: xs, b :: ys, h, hinj => by
    have hlen : (a :: xs).length + (b :: ys).length ≤ n + 1 := h
    have h1 := levDist_map_inj f n xs (b :: ys)
      (by simp only [List.length_cons] at hlen ⊢; omega)
      (fun p hp q hq => hinj p (List.mem_cons_of_mem a hp) q hq)
    have h2 := levDist_map_inj f n (a :: xs) ys
      (by simp only [List.length_cons] at hlen ⊢; omega)
      (fun p hp q hq => hinj p hp q (List.mem_cons_of_mem b hq))
    have h3 := levDist_map_inj f n xs ys
      (by simp only [List.length_cons] at hlen ⊢; omega)
      (fun p hp q hq => hinj p (List.mem_cons_of_mem a hp) q (List.mem_cons_of_mem b hq))
    have hab : (f a = f b) ↔ (a = b) :=
      hinj a (List.mem_cons_self a xs) b (List.mem_cons_self b ys)
    simp only [List.map_cons]
    rw [levDist]
    conv_rhs => rw [levDist]
    rw [← List.map_cons f b ys, ← List.map_cons f a xs, h1, h2, h3]
    simp only [hab]

/-- The surrogate coding `word2char` is injective on the words of the pair. -/
theorem idxIn_inj {α : Type} [DecidableEq α] {l : List α} {a b : α}
    (ha : a ∈ l) (hb : b ∈ l) : idxIn l a = idxIn l b ↔ a = b :=
  List.indexOf_inj ha hb

/-- The per-pair surrogate-symbol distance of `wer` equals the plain word-level
edit distance of the pair. -/
theorem werPairDist_eq_word_lev (p t : List (List Char)) :
    werPairDist p t = levDist (splitWords p.flatten) (splitWords t.flatten) := by
  rw [werPairDist]
  apply levDist_map_inj _ (_ + _) _ _ le_rfl
  intro a ha b hb
  exact idxIn_inj
    (List.mem_dedup.mpr (List.mem_append_left _ ha))
    (List.mem_dedup.mpr (List.mem_append_right _ hb))

/-! ### Claim C5 -/

/-- Length is preserved by a slice assignment. -/
theorem setRange_length (l : List Nat) (a b v : Nat) :
    (setRange l a b v).length = l.length := by
  simp [setRange]

/-- Pointwise value of a slice assignment. -/
theorem setRange_getD (l : List Nat) (a b v j : Nat) (hj : j < l.length) :
    (setRange l a b v).getD j 0 = if a ≤ j ∧ j < b then v else l.getD j 0 := by
  rw [setRange, List.getD_eq_getElem?_getD, List.getElem?_map, List.getElem?_range hj]
  rfl

/-- Pointwise value of a sequence of slice assignments all writing the same
pad value: a position is pad exactly when some pair's interval covers it. -/
theorem foldl_setRange_getD (padI : Nat) :
    ∀ (ps : List (Nat × Nat)) (out : List Nat) (j : Nat), j < out.length →
      (ps.foldl (fun o se => setRange o (se.1 + 1) se.2 padI) out).getD j 0 =
        if ∃ se ∈ ps, se.1 + 1 ≤ j ∧ j < se.2 then padI else out.getD j 0
  | [], out, j, hj => by simp
  | se :: ps, out, j, hj => by
    rw [List.foldl_cons,
      foldl_setRange_getD padI ps _ j (by rw [setRange_length]; exact hj),
      setRange_getD out _ _ _ j hj]
    by_cases hcov : se.1 + 1 ≤ j ∧ j < se.2
    · by_cases hex : ∃ x ∈ ps, x.1 + 1 ≤ j ∧ j < x.2 <;>
        simp [List.exists_mem_cons_iff, hex, hcov]
    · by_cases hex : ∃ x ∈ ps, x.1 + 1 ≤ j ∧ j < x.2 <;>
        simp [List.exists_mem_cons_iff, hex, hcov]

/-- Claim C5 (corrected): the masking of `accuracy_ignore_pad` pairs the
`k`-th occurrence of end-of-sequence anywhere in the flattened target with the
`k`-th block boundary `(k+1)·seq_len`, and a position of the output is
overwritten with pad exactly when one of these zipped pairs `(p, e)` covers it
(`p + 1 ≤ j < e`); the masking is not per block, so a block whose target has
no end-of-sequence token can still be overwritten by a pair formed from an
earlier block's second end-of-sequence occurrence. -/
theorem c5_amended_mask (output target : List Nat) (padI eosI seqLen j : Nat)
    (hj : j < output.length) :
    (maskAfterEos output target padI eosI seqLen).getD j 0 =
      if ∃ se ∈ (eosPositions target eosI).zip (blockEnds seqLen target.length),
          se.1 + 1 ≤ j ∧ j < se.2 then padI
      else output.getD j 0 := by
  rw [maskAfterEos]
  exact foldl_setRange_getD padI _ output j hj

/-- Claim C5 witness: with `seq_len = 2`, pad 7, eos 9, target `[9, 9, 5, 6]`
and output `[0, 1, 2, 3]`, position 3 is overwritten with pad. -/
theorem c5_witness :
    (maskAfterEos [0, 1, 2, 3] [9, 9, 5, 6] 7 9 2).getD 3 0 = 7 := by
  rw [c5_amended_mask [0, 1, 2, 3] [9, 9, 5, 6] 7 9 2 3 (by norm_num)]
  decide

/-- Claim C5 counterexample: with `seq_len = 2`, pad 7, eos 9 and target
`[9, 9, 5, 6]`, the second block (positions 2 and 3) contains no
end-of-sequence token, yet masking `[0, 1, 2, 3]` yields `[0, 7, 7, 7]` —
position 2 of that block is modified, refuting the claim's per-block rule. -/
theorem c5_counterexample :
    maskAfterEos [0, 1, 2, 3] [9, 9, 5, 6] 7 9 2 = [0, 7, 7, 7] ∧
      ([0, 7, 7, 7] : List Nat).getD 2 0 ≠ ([0, 1, 2, 3] : List Nat).getD 2 0 := by
  decide

/-! ### Claim C6 -/

/-- The arg-max index is a valid index of a nonempty row. -/
theorem argmaxIdx_lt_length : ∀ (l : List ℚ), l ≠ [] → argmaxIdx l < l.length
  | [], h => absurd rfl h
  | [_], _ => by simp [argmaxIdx]
  | x :: y :: t, _ => by
    rw [argmaxIdx]
    split
    · have := argmaxIdx_lt_length (y :: t) (by simp)
      simp only [List.length_cons] at this ⊢
      omega
    · simp

/-- The entry at the arg-max index dominates every entry of the row. -/
theorem argmaxIdx_attains : ∀ (l : List ℚ) (j : Nat), j < l.length →
    l.getD j 0 ≤ l.getD (argmaxIdx l) 0
  | [], j, hj => by simp at hj
  | [x], j, hj => by
    have hj0 : j = 0 := by simpa using hj
    subst hj0
    simp [argmaxIdx]
  | x :: y :: t, j, hj => by
    rw [argmaxIdx]
    split
    · rename_i hgt
      match j with
      | 0 =>
        rw [List.getD_cons_zero, List.getD_cons_succ]
        exact le_of_lt hgt
      | Nat.succ k =>
        rw [List.getD_cons_succ, List.getD_cons_succ]
        exact argmaxIdx_attains (y :: t) k (by simpa using hj)
    · rename_i hle
      push_neg at hle
      match j with
      | 0 => simp
      | Nat.succ k =>
        rw [List.getD_cons_succ, List.getD_cons_zero]
        exact le_trans (argmaxIdx_attains (y :: t) k (by simpa using hj)) hle

/-- The arg-max of a one-hot row is the hot index. -/
theorem argmaxIdx_oneHot (r : List ℚ) (tgt : Nat) (h1 : tgt < r.length)
    (h2 : ∀ j < r.length, r.getD j 0 = if j = tgt then 1 else 0) :
    argmaxIdx r = tgt := by
  have hne : r ≠ [] := by
    intro h
    rw [h] at h1
    simp at h1
  have hlt := argmaxIdx_lt_length r hne
  have hatt := argmaxIdx_attains r tgt h1
  rw [h2 tgt h1, if_pos rfl] at hatt
  by_contra hneq
  rw [h2 _ hlt, if_neg hneq] at hatt
  norm_num at hatt

/-- `getD` through `map` at an in-range index. -/
theorem getD_map_of_lt {α β : Type} (f : α → β) (l : List α) (i : Nat) (d : β)
    (d2 : α) (h : i < l.length) : (l.map f).getD i d = f (l.getD i d2) := by
  rw [List.getD_eq_getElem?_getD, List.getElem?_map, List.getElem?_eq_getElem h,
    List.getD_eq_getElem?_getD, List.getElem?_eq_getElem h]
  rfl

/-- Claim C6 (confirmed): `accuracy` is the number of positions whose arg-max
class matches the label, divided by the number of label positions; it lies in
`[0, 1]`; it is `1` on exact one-hot outputs and `0` when every prediction is
wrong. -/
theorem c6_accuracy (outputs : List (List ℚ)) (labels : List Nat)
    (hlen : outputs.length = labels.length) (hne : labels ≠ []) :
    accuracy outputs labels =
        (matchCount (outputs.map argmaxIdx) labels : ℚ) / (labels.length : ℚ)
      ∧ 0 ≤ accuracy outputs labels ∧ accuracy outputs labels ≤ 1
      ∧ (isOneHot outputs labels → accuracy outputs labels = 1)
      ∧ ((∀ i < labels.length, argmaxIdx (outputs.getD i []) ≠ labels.getD i 0) →
          accuracy outputs labels = 0) := by
  have hN : (0 : ℚ) < (labels.length : ℚ) := by
    have := List.length_pos.mpr hne
    exact_mod_cast this
  have hpred : ∀ i < labels.length,
      (outputs.map argmaxIdx).getD i 0 = argmaxIdx (outputs.getD i []) := by
    intro i hi
    exact getD_map_of_lt argmaxIdx outputs i 0 [] (by omega)
  refine ⟨rfl, ?_, ?_, ?_, ?_⟩
  · exact div_nonneg (Nat.cast_nonneg _) (le_of_lt hN)
  · rw [accuracy, div_le_one hN]
    have : matchCount (outputs.map argmaxIdx) labels ≤ labels.length :=
      le_trans (List.countP_le_length _) (by simp)
    exact_mod_cast this
  · intro hoh
    rw [accuracy]
    have hmc : matchCount (outputs.map argmaxIdx) labels = labels.length := by
      rw [matchCount]
      have hall : ∀ i ∈ List.range labels.length,
          (fun i => decide ((outputs.map argmaxIdx).getD i 0 = labels.getD i 0)) i
            = true := by
        intro i hi
        rw [List.mem_range] at hi
        simp only [decide_eq_true_eq]
        rw [hpred i hi]
        obtain ⟨htgt, hrow⟩ := hoh i hi
        exact argmaxIdx_oneHot _ _ htgt hrow
      simpa using List.countP_eq_length.mpr hall
    rw [hmc, div_self (ne_of_gt hN)]
  · intro hw
    rw [accuracy]
    have hmc : matchCount (outputs.map argmaxIdx) labels = 0 := by
      rw [matchCount, List.countP_eq_zero]
      intro i hi
      rw [List.mem_range] at hi
      simp only [decide_eq_true_eq]
      rw [hpred i hi]
      exact hw i hi
    rw [hmc]
    simp

/-- Claim C6 witness: exact one-hot outputs for labels `[0, 1]` give
accuracy `1`. -/
theorem c6_witness :
    accuracy [[1, 0], [0, 1]] [0, 1] = 1 :=
  (c6_accuracy [[1, 0], [0, 1]] [0, 1] rfl (by simp)).2.2.2.1
    (by unfold isOneHot; decide)

/-! ### Claim C7 -/

/-- Claim C7 (confirmed): `cer` is the sum of per-pair character edit
distances between the space-stripped concatenations, divided by the number of
decoded predictions; it is zero exactly when every zipped pair's
space-stripped strings coincide; and a single-character substitution
contributes exactly one edit. -/
theorem c7_cer (preds targs : List (List (List Char))) (hne : preds ≠ []) :
    cer preds targs =
        .ok ((((preds.zip targs).map (fun pt => cerPairDist pt.1 pt.2)).sum : ℚ) /
          (preds.length : ℚ))
      ∧ (cer preds targs = .ok 0 ↔
          ∀ pt ∈ preds.zip targs, stripSpaces pt.1.flatten = stripSpaces pt.2.flatten)
      ∧ ∀ (u v : List Char) (x y : Char), x ≠ y →
          levDist (u ++ x :: v) (u ++ y :: v) = 1 := by
  have hlen : preds.length ≠ 0 := fun h => hne (List.length_eq_zero.mp h)
  have hcer : cer preds targs =
      .ok ((((preds.zip targs).map (fun pt => cerPairDist pt.1 pt.2)).sum : ℚ) /
        (preds.length : ℚ)) := by
    rw [cer]
    simp [hlen]
  refine ⟨hcer, ?_, fun u v x y hxy => levDist_substitution u v x y hxy⟩
  rw [hcer]
  constructor
  · intro h
    have h0 := Except.ok.inj h
    rw [div_eq_zero_iff] at h0
    have hsum : ((preds.zip targs).map (fun pt => cerPairDist pt.1 pt.2)).sum = 0 := by
      rcases h0 with h0 | h0
      · exact_mod_cast h0
      · exact absurd (Nat.cast_eq_zero.mp h0) hlen
    intro pt hpt
    have hz := List.sum_eq_zero_iff.mp hsum _ (List.mem_map_of_mem _ hpt)
    rw [cerPairDist] at hz
    exact (levDist_eq_zero_iff _ _).mp hz
  · intro h
    have hsum : ((preds.zip targs).map (fun pt => cerPairDist pt.1 pt.2)).sum = 0 := by
      rw [List.sum_eq_zero_iff]
      intro x hx
      rw [List.mem_map] at hx
      obtain ⟨pt, hpt, rfl⟩ := hx
      rw [cerPairDist]
      exact (levDist_eq_zero_iff _ _).mpr (h pt hpt)
    rw [hsum]
    simp

/-- Claim C7 witness: the pair whose sides differ only by a space has CER 0. -/
theorem c7_witness :
    cer [[['a', ' ', 'b']]] [[['a', 'b']]] = Except.ok 0 :=
  (c7_cer [[['a', ' ', 'b']]] [[['a', 'b']]] (by simp)).2.1.mpr (by decide)

/-! ### Claim C8 -/

/-- Claim C8 (confirmed): the surrogate-symbol distance of a pair equals the
plain word-level edit distance of that pair (so it does not depend on the
words' character lengths); a pair differing in exactly one whole word
contributes exactly 1; and `wer` is the per-pair distances — each computed
from its own pair alone, the `word2char` table being rebuilt per pair —
summed and divided by the number of decoded predictions. -/
theorem c8_wer (p t : List (List Char)) (u v : List (List Char)) (w1 w2 : List Char) :
    werPairDist p t = levDist (splitWords p.flatten) (splitWords t.flatten)
      ∧ (splitWords p.flatten = u ++ w1 :: v → splitWords t.flatten = u ++ w2 :: v →
          w1 ≠ w2 → werPairDist p t = 1)
      ∧ ∀ (preds targs : List (List (List Char))), preds ≠ [] →
          wer preds targs =
            .ok ((((preds.zip targs).map (fun pt => werPairDist pt.1 pt.2)).sum : ℚ) /
              (preds.length : ℚ)) := by
  have hmain := werPairDist_eq_word_lev p t
  refine ⟨hmain, fun h1 h2 hw => ?_, fun preds targs hne => ?_⟩
  · rw [hmain, h1, h2]
    exact levDist_substitution u v w1 w2 hw
  · have hlen : preds.length ≠ 0 := fun h => hne (List.length_eq_zero.mp h)
    rw [wer]
    simp [hlen]

/-- Claim C8 witness: target `the quick fox` against prediction `the slow fox`
contributes word-level distance exactly 1, although `quick` and `slow` have
different character lengths. -/
theorem c8_witness :
    werPairDist [['t', 'h', 'e', ' ', 'q', 'u', 'i', 'c', 'k', ' ', 'f', 'o', 'x']]
      [['t', 'h', 'e', ' ', 's', 'l', 'o', 'w', ' ', 'f', 'o', 'x']] = 1 :=
  (c8_wer [['t', 'h', 'e', ' ', 'q', 'u', 'i', 'c', 'k', ' ', 'f', 'o', 'x']]
      [['t', 'h', 'e', ' ', 's', 'l', 'o', 'w', ' ', 'f', 'o', 'x']]
      [['t', 'h', 'e']] [['f', 'o', 'x']]
      ['q', 'u', 'i', 'c', 'k'] ['s', 'l', 'o', 'w']).2.1
    (by decide) (by decide) (by decide)

/-! ### Claim C9 -/

/-- Claim C9 counterexample: on a degenerate batch with zero decoded
sequences, `cer` and `wer` run straight into the division by the zero count —
the interpreter's division-by-zero error — and do not produce the explicit
invalid-input rejection the claim describes. -/
theorem c9_counterexample :
    cer ([] : List (List (List Char))) [] = Except.error PyErr.zeroDivision ∧
      wer ([] : List (List (List Char))) [] = Except.error PyErr.zeroDivision ∧
      (Except.error PyErr.zeroDivision : Except PyErr ℚ) ≠
        Except.error PyErr.invalidInput := by
  refine ⟨rfl, rfl, fun h => ?_⟩
  injection h with h1
  exact PyErr.noConfusion h1

/-- Claim C9 (corrected): with zero decoded sequences, `cer` and `wer` perform
the division by zero (raising the interpreter's division-by-zero error); no
explicit invalid-input guard exists in the code. -/
theorem c9_amended (preds targs : List (List (List Char))) (h : preds = []) :
    cer preds targs = Except.error PyErr.zeroDivision ∧
      wer preds targs = Except.error PyErr.zeroDivision := by
  subst h
  exact ⟨rfl, rfl⟩

/-- Claim C9 witness: the empty decoded batch against a nonempty target
list. -/
theorem c9_witness :
    cer ([] : List (List (List Char))) [[['a']]] = Except.error PyErr.zeroDivision ∧
      wer ([] : List (List (List Char))) [[['a']]] = Except.error PyErr.zeroDivision :=
  c9_amended [] [[['a']]] rfl

/-! ### Claim C10 -/

/-- Claim C10 (confirmed): `accuracy_ignore_pad` mutates the caller's output
tensor in place — on a concrete input the buffer observed after the call
differs from the one passed in — while the target tensor is returned
untouched by it, and `accuracy`, `cer` and `wer` modify neither tensor. -/
theorem c10_frame :
    (accuracyIgnorePadState ⟨[0, 1, 2, 3], [9, 9, 5, 6]⟩ 7 9 2).output ≠ [0, 1, 2, 3]
      ∧ (∀ (st : MetricsState) (padI eosI seqLen : Nat),
          (accuracyIgnorePadState st padI eosI seqLen).target = st.target)
      ∧ (∀ st : MetricsState, accuracyState st = st)
      ∧ (∀ st : MetricsState, cerState st = st)
      ∧ (∀ st : MetricsState, werState st = st) :=
  ⟨by decide, fun _ _ _ _ => rfl, fun _ => rfl, fun _ => rfl, fun _ => rfl⟩
